import Mathlib

/-! Verification of the resumable, checkpointed batch-embedding pipeline of the
medical-ai-assistant repository.

The Python modules embedded here are:
  * `app/utils/pdf_processor.py`   — `PDFProcessor.chunk_text`, `PDFProcessor.process_pdf`
  * `app/utils/checkpoint_manager.py` — `CheckpointManager.load_checkpoint`,
    `save_checkpoint`, `get_remaining_chunks`
  * `app/utils/embeddings.py`      — `EmbeddingsManager.get_embeddings_batch_resumable`
  * `app/utils/vector_store.py`    — `VectorStore.add_documents_resumable`

Python strings are embedded as `List Char`; Python slicing, `rfind` and
`strip` are given their Python semantics below.  External services are
embedded as oracles: the MD5 hex digest (`hashlib.md5(...).hexdigest()`) as an
arbitrary function `String → String`, the per-text embedding call (which may
raise) as `String → Option E`, and success/failure of the n-th
`collection.add` call against the vector index as `Nat → Bool`.  File I/O of
the checkpoint manager is embedded as an association list from document name
to file content, where a file's content either parses to a record or is
unreadable/corrupt.
-/

namespace MedAI

/-- Python strings, embedded as lists of characters. -/
abbrev PyStr := List Char

/-- Length of a Python string, as an integer (Python indices are ints). -/
def pyLen (s : PyStr) : Int := s.length

/-- Normalise one endpoint of a Python slice `s[a:b]`: negative indices count
from the end, and endpoints are clamped to `[0, len(s)]`. -/
def pySliceNorm (n : Nat) (i : Int) : Nat :=
  if i < 0 then ((n : Int) + i).toNat else min i.toNat n

/-- Python slice `s[a:b]` (step 1). -/
def pySlice (s : PyStr) (a b : Int) : PyStr :=
  (s.take (pySliceNorm s.length b)).drop (pySliceNorm s.length a)

/-- Python `s.rfind(c)`: highest index at which `c` occurs, `-1` if absent. -/
def pyRfind (s : PyStr) (c : Char) : Int :=
  match s.reverse.findIdx? (fun x => x == c) with
  | some j => (s.length : Int) - 1 - (j : Int)
  | none => -1

/-- The whitespace characters recognised by Python's `str.strip()`
(restricted to the ASCII range). -/
def isPySpace (c : Char) : Bool :=
  c == ' ' || c == '\t' || c == '\n' || c == '\r' || c == '\x0b' || c == '\x0c'

/-- Python `s.strip()`: remove leading and trailing whitespace. -/
def pyStrip (s : PyStr) : PyStr :=
  ((s.dropWhile isPySpace).reverse.dropWhile isPySpace).reverse

/-!  ## Chunker (`PDFProcessor.chunk_text` / `process_pdf`)  -/

/-- One iteration of the `while` loop of `PDFProcessor.chunk_text`:
given the current `start`, produce the chunk appended to the result list and
the next value of `start`.

```
end = start + self.chunk_size
chunk = text[start:end]
if end < len(text):
    last_period = chunk.rfind('.')
    if last_period > self.chunk_size // 2:
        end = start + last_period + 1
chunks.append(chunk.strip())
start = end - self.chunk_overlap
```
Note that `chunk` is sliced *before* the sentence-boundary pull-back, so the
appended chunk always covers `text[start : start+chunk_size]` even when `end`
is pulled back. -/
def chunkStep (chunk_size chunk_overlap : Nat) (text : PyStr) (start : Int) :
    PyStr × Int :=
  let e := start + (chunk_size : Int)
  let chunk := pySlice text start e
  let e :=
    if e < pyLen text then
      let last_period := pyRfind chunk '.'
      if last_period > ((chunk_size / 2 : Nat) : Int) then start + last_period + 1
      else e
    else e
  (pyStrip chunk, e - (chunk_overlap : Int))

/-- The `while start < len(text)` loop of `PDFProcessor.chunk_text`, with
explicit fuel bounding the number of iterations; `none` means the fuel was
exhausted while the loop condition still held (the Python loop would still be
running). -/
def chunkTextAux (chunk_size chunk_overlap : Nat) (text : PyStr) :
    Nat → Int → Option (List PyStr)
  | 0, start => if start < pyLen text then none else some []
  | fuel + 1, start =>
    if start < pyLen text then
      let s := chunkStep chunk_size chunk_overlap text start
      match chunkTextAux chunk_size chunk_overlap text fuel s.2 with
      | some rest => some (s.1 :: rest)
      | none => none
    else some []

/-- Model of `PDFProcessor.chunk_text(text)`: split text into overlapping chunks.
`text.length + 1` units of fuel suffice whenever each loop iteration advances
`start` by at least one (which holds e.g. when `chunk_overlap <
chunk_size // 2`, see the termination theorem). -/
def chunk_text (chunk_size chunk_overlap : Nat) (text : PyStr) :
    Option (List PyStr) :=
  chunkTextAux chunk_size chunk_overlap text (text.length + 1) 0

/-- Python `f"{i:06d}"`: decimal, left-padded with zeros to width 6. -/
def pad6 (i : Nat) : String :=
  let s := toString i
  String.mk (List.replicate (6 - s.length) '0') ++ s

/-- The chunk-ID assignment of `PDFProcessor.process_pdf`:
`chunk_hash = hashlib.md5(f"{i}_{chunk[:100]}".encode()).hexdigest()[:8]`,
`chunk_id = f"chunk_{i:06d}_{chunk_hash}"`, where `md5hex` is an oracle for
`hashlib.md5(...).hexdigest()`. -/
def mkChunkId (md5hex : String → String) (i : Nat) (chunk : PyStr) : String :=
  let chunk_hash := String.mk ((md5hex (toString i ++ "_" ++ String.mk (chunk.take 100))).data.take 8)
  "chunk_" ++ pad6 i ++ "_" ++ chunk_hash

/-- The chunk-and-identify step of `PDFProcessor.process_pdf` (the part after
PDF text extraction, which is external I/O): chunk the text and assign each
chunk its deterministic positional ID. -/
def processPdfChunks (md5hex : String → String) (chunk_size chunk_overlap : Nat)
    (text : PyStr) : Option (List (String × PyStr)) :=
  (chunk_text chunk_size chunk_overlap text).map
    (fun chunks => chunks.enum.map (fun p => (mkChunkId md5hex p.1 p.2, p.2)))

/-!  ## Checkpoint store (`CheckpointManager`)  -/

/-- The progress record of `checkpoint_manager.py` (the JSON dict written by
`save_checkpoint`).  The wall-clock field `last_updated` is ignored, being
pure observability that no pipeline decision reads. -/
structure CheckpointRecord where
  processed_chunks : Nat
  total_chunks : Nat
  processed_ids : List String
  document_name : String
deriving DecidableEq, Repr

/-- Content of one checkpoint file: either a parsed record, or a file whose
read/parse raises (corrupt JSON, missing keys, I/O error). -/
abbrev FileContent := Option CheckpointRecord

/-- The checkpoint directory: an association list from document name to the
content of `<name>_checkpoint.json`; absence of a key means no file exists. -/
abbrev CheckpointStore := List (String × FileContent)

/-- Look up the checkpoint file of a document. -/
def storeLookup (fs : CheckpointStore) (name : String) : Option FileContent :=
  (fs.find? (fun p => p.1 == name)).map Prod.snd

/-- Write (create or overwrite) the checkpoint file of a document. -/
def storeSet (fs : CheckpointStore) (name : String) (v : FileContent) :
    CheckpointStore :=
  match fs with
  | [] => [(name, v)]
  | (k, w) :: rest =>
    if k == name then (k, v) :: rest else (k, w) :: storeSet rest name v

/-- The fresh record returned by `load_checkpoint` when no checkpoint exists
(and from its `except` handler). -/
def zeroCheckpoint (document_name : String) : CheckpointRecord :=
  { processed_chunks := 0, total_chunks := 0, processed_ids := []
    document_name := document_name }

/-- Model of `CheckpointManager.load_checkpoint`: return the parsed file if present
and readable; return the zeroed record when the file is absent, and likewise
from the `except Exception` handler when reading or parsing raises. -/
def load_checkpoint (fs : CheckpointStore) (document_name : String) :
    CheckpointRecord :=
  match storeLookup fs document_name with
  | none => zeroCheckpoint document_name
  | some none => zeroCheckpoint document_name
  | some (some checkpoint) => checkpoint

/-- Model of `CheckpointManager.save_checkpoint`: stamp the record with the document
name (the Python also stamps `last_updated`, ignored here) and write it. -/
def save_checkpoint (fs : CheckpointStore) (document_name : String)
    (progress : CheckpointRecord) : CheckpointStore :=
  storeSet fs document_name (some { progress with document_name := document_name })

/-- Model of `CheckpointManager.get_remaining_chunks`: keep the chunks whose ID is not
in the checkpoint's `processed_ids`. -/
def get_remaining_chunks (all_chunks : List (String × String))
    (checkpoint : CheckpointRecord) : List (String × String) :=
  all_chunks.filter (fun chunk => !(checkpoint.processed_ids.contains chunk.1))

/-!  ## Embedding client (`EmbeddingsManager`)  -/

/-- Model of `EmbeddingsManager.get_embeddings_batch_resumable`: embed each text in
order; a text whose individual embedding raises contributes `None` and the
loop continues.  The per-text API call is the oracle `emb` (`none` = the call
raised); `start_index` and the progress callback only feed logging and are
dropped. -/
def get_embeddings_batch_resumable {E : Type} (emb : String → Option E)
    (texts : List String) : List (Option E) :=
  texts.map emb

/-!  ## Vector store (`VectorStore.add_documents_resumable`)  -/

/-- The metadata dict `{"source": source, "doc_id": doc_id}` attached to each
document. -/
structure RecordMeta where
  source : String
  doc_id : String
deriving DecidableEq, Repr

/-- One record upserted into the ChromaDB collection. -/
structure IndexRecord (E : Type) where
  id : String
  embedding : E
  document : String
  metadata : RecordMeta
deriving DecidableEq, Repr

/-- The external state touched by `add_documents_resumable`: the collection's
contents (in insertion order) and the checkpoint directory. -/
structure VSState (E : Type) where
  index : List (IndexRecord E)
  checkpoints : CheckpointStore
deriving DecidableEq, Repr

/-- Observable outcome of one successful `add_documents_resumable` run:
the argument lists of the `collection.add` calls it made, the number of items
it processed this run, and the checkpoint record it saved (if any). -/
structure RunInfo (E : Type) where
  upsertCalls : List (List (IndexRecord E))
  processedThisRun : Nat
  savedCheckpoint : Option CheckpointRecord
deriving DecidableEq, Repr

/-- The `for emb, doc_id, text, meta in zip(embeddings, chunk_ids,
chunk_texts, metadatas): if emb is not None: ...` loop: keep the records with
a real embedding, in order (like `zip`, stop at the shortest list). -/
def filterValid {E : Type} :
    List (Option E) → List String → List String → List RecordMeta →
    List (IndexRecord E)
  | some e :: es, i :: is, t :: ts, m :: ms =>
    ⟨i, e, t, m⟩ :: filterValid es is ts ms
  | none :: es, _ :: is, _ :: ts, _ :: ms => filterValid es is ts ms
  | _, _, _, _ => []

/-- The batching loop `for i in range(0, len(valid_ids), batch_size)`, which
slices off `batch_size` records at a time; the fuel is the list length, which
bounds the iteration count whenever `batch_size ≥ 1` (Python's `range` raises
on step 0, outside this embedding). -/
def batchListAux {A : Type} (batch_size : Nat) : Nat → List A → List (List A)
  | _, [] => []
  | 0, _ :: _ => []
  | fuel + 1, a :: t =>
    (a :: t).take batch_size :: batchListAux batch_size fuel (t.drop (batch_size - 1))

/-- Partition a list into successive slices of `batch_size` elements. -/
def batchList {A : Type} (batch_size : Nat) (l : List A) : List (List A) :=
  batchListAux batch_size l.length l

/-- The sequence of `self.collection.add(...)` calls, one per batch: `addOk n`
tells whether the n-th call succeeds.  Returns the collection contents after
the calls, and whether all batches were written (`false` = the call raised,
aborting the loop with the earlier batches already committed). -/
def addBatches {E : Type} (addOk : Nat → Bool) :
    Nat → List (IndexRecord E) → List (List (IndexRecord E)) →
    List (IndexRecord E) × Bool
  | _, index, [] => (index, true)
  | call, index, b :: bs =>
    if addOk call then addBatches addOk (call + 1) (index ++ b) bs
    else (index, false)

/-- Model of `VectorStore.add_documents_resumable`: load the checkpoint (when a
checkpoint manager is passed), drop the already-processed chunks, embed the
rest tolerating per-item failures, filter out the failed items, add the valid
records to the collection in batches, and only then save the updated
checkpoint.  The result is the new external state together with `some` run
information on success, or `none` when a `collection.add` call raised (the
exception is logged and re-raised in the Python). -/
def add_documents_resumable {E : Type} (emb : String → Option E)
    (addOk : Nat → Bool) (st : VSState E) (documents : List (String × String))
    (source : String) (useCheckpointManager : Bool) (document_name : String)
    (batch_size : Nat) : VSState E × Option (RunInfo E) :=
  let checkpoint : Option CheckpointRecord :=
    if useCheckpointManager then some (load_checkpoint st.checkpoints document_name)
    else none
  let remaining_docs : List (String × String) :=
    match checkpoint with
    | some cp => get_remaining_chunks documents cp
    | none => documents
  let processed_count : Nat :=
    match checkpoint with
    | some cp => cp.processed_chunks
    | none => 0
  let oldIds : List String :=
    match checkpoint with
    | some cp => cp.processed_ids
    | none => []
  let chunk_ids := remaining_docs.map Prod.fst
  let chunk_texts := remaining_docs.map Prod.snd
  let metadatas := remaining_docs.map (fun d => RecordMeta.mk source d.1)
  if chunk_ids.isEmpty then
    (st, some ⟨[], 0, none⟩)
  else
    let embeddings := get_embeddings_batch_resumable emb chunk_texts
    let valid := filterValid embeddings chunk_ids chunk_texts metadatas
    let valid_ids := valid.map IndexRecord.id
    let newly_processed_ids := oldIds ++ valid_ids
    let batches := batchList batch_size valid
    match addBatches addOk 0 st.index batches with
    | (index2, false) => ({ st with index := index2 }, none)
    | (index2, true) =>
      if useCheckpointManager then
        let updated : CheckpointRecord :=
          { processed_chunks := processed_count + valid_ids.length
            total_chunks := documents.length
            processed_ids := newly_processed_ids
            document_name := document_name }
        (⟨index2, save_checkpoint st.checkpoints document_name updated⟩,
         some ⟨batches, valid_ids.length, some updated⟩)
      else
        ({ st with index := index2 }, some ⟨batches, valid_ids.length, none⟩)

/-- Derived description of the list of valid records built by the
filtering loop of `add_documents_resumable` (proven equal to the `zip`-based
loop `filterValid` on the aligned lists the code passes it). -/
def validRecords {E : Type} (emb : String → Option E) (source : String)
    (rem : List (String × String)) : List (IndexRecord E) :=
  rem.filterMap (fun d => (emb d.2).map (fun e => ⟨d.1, e, d.2, ⟨source, d.1⟩⟩))


lemma contains_true {l : List String} {a : String} :
    l.contains a = true ↔ a ∈ l := by
  simp [List.contains, List.elem_iff]

lemma mem_get_remaining {docs : List (String × String)} {cp : CheckpointRecord}
    {d : String × String} :
    d ∈ get_remaining_chunks docs cp ↔ d ∈ docs ∧ d.1 ∉ cp.processed_ids := by
  simp [get_remaining_chunks, List.mem_filter, contains_true]

lemma get_remaining_eq_nil {docs : List (String × String)} {cp : CheckpointRecord}
    (h : ∀ d ∈ docs, d.1 ∈ cp.processed_ids) :
    get_remaining_chunks docs cp = [] := by
  apply List.filter_eq_nil_iff.mpr
  intro d hd
  simp [contains_true, h d hd]

lemma filterValid_eq {E : Type} (emb : String → Option E) (src : String)
    (rem : List (String × String)) :
    filterValid (rem.map (emb ∘ Prod.snd)) (rem.map Prod.fst)
      (rem.map Prod.snd) (rem.map (fun d => RecordMeta.mk src d.1))
      = validRecords emb src rem := by
  induction rem with
  | nil => rfl
  | cons d rest ih =>
    cases h : emb d.2 with
    | none => simp [filterValid, validRecords, h, Function.comp] at ih ⊢; exact ih
    | some e => simp [filterValid, validRecords, h, Function.comp] at ih ⊢; exact ih

lemma validRecords_map_id {E : Type} (emb : String → Option E) (src : String)
    (rem : List (String × String)) :
    (validRecords emb src rem).map IndexRecord.id
      = (rem.filter (fun d => (emb d.2).isSome)).map Prod.fst := by
  induction rem with
  | nil => rfl
  | cons d rest ih =>
    cases h : emb d.2 with
    | none => simp [validRecords, h] at ih ⊢; exact ih
    | some e => simp [validRecords, h] at ih ⊢; exact ih

lemma batchListAux_flatten {A : Type} {bs : Nat} (hbs : 1 ≤ bs) :
    ∀ (fuel : Nat) (l : List A), l.length ≤ fuel →
      (batchListAux bs fuel l).flatten = l := by
  intro fuel
  induction fuel with
  | zero =>
    intro l hl
    cases l with
    | nil => rfl
    | cons a t => simp at hl
  | succ n ih =>
    intro l hl
    cases l with
    | nil => rfl
    | cons a t =>
      obtain ⟨b, rfl⟩ : ∃ b, bs = b + 1 := ⟨bs - 1, by omega⟩
      have ht : (t.drop b).length ≤ n := by
        simp only [List.length_drop]
        simp only [List.length_cons] at hl
        omega
      have hb : b + 1 - 1 = b := by omega
      simp only [batchListAux, hb, List.flatten_cons, ih _ ht, List.take_cons]
      simp [List.take_append_drop]

lemma batchListAux_le {A : Type} {bs : Nat} :
    ∀ (fuel : Nat) (l : List A), ∀ b ∈ batchListAux bs fuel l, b.length ≤ bs := by
  intro fuel
  induction fuel with
  | zero =>
    intro l b hb
    cases l <;> simp [batchListAux] at hb
  | succ n ih =>
    intro l b hb
    cases l with
    | nil => simp [batchListAux] at hb
    | cons a t =>
      simp only [batchListAux, List.mem_cons] at hb
      rcases hb with rfl | hb
      · simp [List.length_take]
      · exact ih _ _ hb

lemma batchList_flatten {A : Type} {bs : Nat} (hbs : 1 ≤ bs) (l : List A) :
    (batchList bs l).flatten = l :=
  batchListAux_flatten hbs l.length l le_rfl

lemma batchList_le {A : Type} {bs : Nat} (l : List A) :
    ∀ b ∈ batchList bs l, b.length ≤ bs :=
  batchListAux_le l.length l

lemma addBatches_ok {E : Type} {addOk : Nat → Bool} (hadd : ∀ n, addOk n = true) :
    ∀ (batches : List (List (IndexRecord E))) (call : Nat) (index : List (IndexRecord E)),
      addBatches addOk call index batches = (index ++ batches.flatten, true) := by
  intro batches
  induction batches with
  | nil => intro call index; simp [addBatches]
  | cons b bs ih =>
    intro call index
    simp [addBatches, hadd call, ih, List.append_assoc]

lemma run_spec {E : Type} (emb : String → Option E) (addOk : Nat → Bool)
    (st : VSState E) (docs : List (String × String)) (src name : String)
    (bs : Nat) (hadd : ∀ n, addOk n = true) (hbs : 1 ≤ bs) :
    add_documents_resumable emb addOk st docs src true name bs =
      (if get_remaining_chunks docs (load_checkpoint st.checkpoints name) = [] then
        (st, some ⟨[], 0, none⟩)
      else
        (⟨st.index ++ validRecords emb src (get_remaining_chunks docs (load_checkpoint st.checkpoints name)),
          save_checkpoint st.checkpoints name
            ⟨(load_checkpoint st.checkpoints name).processed_chunks
                + (validRecords emb src (get_remaining_chunks docs (load_checkpoint st.checkpoints name))).length,
             docs.length,
             (load_checkpoint st.checkpoints name).processed_ids
                ++ (validRecords emb src (get_remaining_chunks docs (load_checkpoint st.checkpoints name))).map IndexRecord.id,
             name⟩⟩,
         some ⟨batchList bs (validRecords emb src (get_remaining_chunks docs (load_checkpoint st.checkpoints name))),
               (validRecords emb src (get_remaining_chunks docs (load_checkpoint st.checkpoints name))).length,
               some ⟨(load_checkpoint st.checkpoints name).processed_chunks
                        + (validRecords emb src (get_remaining_chunks docs (load_checkpoint st.checkpoints name))).length,
                     docs.length,
                     (load_checkpoint st.checkpoints name).processed_ids
                        ++ (validRecords emb src (get_remaining_chunks docs (load_checkpoint st.checkpoints name))).map IndexRecord.id,
                     name⟩⟩)) := by
  by_cases hrem : get_remaining_chunks docs (load_checkpoint st.checkpoints name) = []
  · simp [add_documents_resumable, hrem]
  · simp only [add_documents_resumable, if_true, if_pos rfl]
    simp [hrem, get_embeddings_batch_resumable, filterValid_eq,
      addBatches_ok hadd, batchList_flatten hbs,
      List.isEmpty_iff, List.map_eq_nil_iff]


lemma dropWhile_head_false (p : Char → Bool) :
    ∀ (l : PyStr) (c : Char), (l.dropWhile p).head? = some c → p c = false := by
  intro l
  induction l with
  | nil => intro c h; simp [List.dropWhile] at h
  | cons a t ih =>
    intro c h
    by_cases ha : p a
    · rw [List.dropWhile_cons_of_pos ha] at h
      exact ih c h
    · rw [List.dropWhile_cons_of_neg ha] at h
      simp at h
      subst h
      simpa using ha

lemma dropWhile_eq_self_of_head (p : Char → Bool) (l : PyStr)
    (h : ∀ c, l.head? = some c → p c = false) : l.dropWhile p = l := by
  cases l with
  | nil => rfl
  | cons a t =>
    have : p a = false := h a rfl
    simp [List.dropWhile, this]

lemma getLast?_dropWhile (p : Char → Bool) :
    ∀ (l : PyStr), l.dropWhile p ≠ [] → (l.dropWhile p).getLast? = l.getLast? := by
  intro l
  induction l with
  | nil => intro h; simp [List.dropWhile] at h
  | cons a t ih =>
    intro h
    by_cases ha : p a
    · rw [List.dropWhile_cons_of_pos ha] at h ⊢
      rw [ih h]
      cases t with
      | nil => simp [List.dropWhile] at h
      | cons b t2 => simp [List.getLast?_cons_cons]
    · rw [List.dropWhile_cons_of_neg ha]

lemma pyStrip_head (s : PyStr) :
    ∀ c, (pyStrip s).head? = some c → isPySpace c = false := by
  intro c h
  unfold pyStrip at h
  rw [List.head?_reverse] at h
  have hne : ((s.dropWhile isPySpace).reverse.dropWhile isPySpace) ≠ [] := by
    intro heq
    rw [heq] at h
    simp at h
  rw [getLast?_dropWhile _ _ hne, List.getLast?_reverse] at h
  exact dropWhile_head_false _ _ _ h

lemma pyStrip_getLast (s : PyStr) :
    ∀ c, (pyStrip s).getLast? = some c → isPySpace c = false := by
  intro c h
  unfold pyStrip at h
  rw [List.getLast?_reverse] at h
  exact dropWhile_head_false _ _ _ h

lemma pyStrip_eq_self (l : PyStr)
    (hh : ∀ c, l.head? = some c → isPySpace c = false)
    (hl : ∀ c, l.getLast? = some c → isPySpace c = false) : pyStrip l = l := by
  unfold pyStrip
  rw [dropWhile_eq_self_of_head _ _ hh]
  rw [dropWhile_eq_self_of_head _ _ (fun c hc => hl c (by rwa [List.head?_reverse] at hc))]
  exact List.reverse_reverse l

lemma pyStrip_idem (s : PyStr) : pyStrip (pyStrip s) = pyStrip s :=
  pyStrip_eq_self _ (pyStrip_head s) (pyStrip_getLast s)

lemma chunkTextAux_mem_strip (cs ov : Nat) (text : PyStr) :
    ∀ (fuel : Nat) (start : Int) (res : List PyStr),
      chunkTextAux cs ov text fuel start = some res →
      ∀ c ∈ res, pyStrip c = c := by
  intro fuel
  induction fuel with
  | zero =>
    intro start res h c hc
    simp only [chunkTextAux] at h
    split at h
    · exact absurd h (by simp)
    · cases h; simp at hc
  | succ n ih =>
    intro start res h c hc
    simp only [chunkTextAux] at h
    split at h
    · cases hrec : chunkTextAux cs ov text n (chunkStep cs ov text start).2 with
      | none => rw [hrec] at h; exact absurd h (by simp)
      | some rest =>
        rw [hrec] at h
        cases h
        rcases List.mem_cons.mp hc with rfl | hc2
        · show pyStrip (chunkStep cs ov text start).1 = _
          have : (chunkStep cs ov text start).1
              = pyStrip (pySlice text start (start + (cs : Int))) := rfl
          rw [this, pyStrip_idem]
        · exact ih _ _ hrec c hc2
    · cases h; simp at hc


lemma chunkStep_lb (cs ov : Nat) (text : PyStr) (start : Int)
    (hov : ov < cs / 2) (h : start < pyLen text) :
    start + ((cs / 2 : Nat) : Int) + 1 - (ov : Int) ≤ (chunkStep cs ov text start).2 := by
  simp only [chunkStep]
  split
  · split
    · rename_i h2
      omega
    · rename_i h2
      have h3 : cs / 2 + 1 ≤ cs := by omega
      have h4 : ((cs / 2 : Nat) : Int) + 1 ≤ (cs : Int) := by exact_mod_cast h3
      omega
  · have h3 : cs / 2 + 1 ≤ cs := by omega
    have h4 : ((cs / 2 : Nat) : Int) + 1 ≤ (cs : Int) := by exact_mod_cast h3
    omega

lemma chunkTextAux_isSome (cs ov : Nat) (hov : ov < cs / 2) (text : PyStr) :
    ∀ (fuel : Nat) (start : Int), pyLen text - start ≤ (fuel : Int) →
      (chunkTextAux cs ov text fuel start).isSome = true := by
  intro fuel
  induction fuel with
  | zero =>
    intro start h
    simp only [chunkTextAux]
    rw [if_neg (by push_cast at h; omega)]
    simp
  | succ n ih =>
    intro start h
    simp only [chunkTextAux]
    split
    · rename_i h1
      have hstep := chunkStep_lb cs ov text start hov h1
      have hcast : (ov : Int) < ((cs / 2 : Nat) : Int) := by exact_mod_cast hov
      have h2 : pyLen text - (chunkStep cs ov text start).2 ≤ (n : Int) := by
        push_cast at h ⊢
        omega
      have h3 := ih _ h2
      cases hrec : chunkTextAux cs ov text n (chunkStep cs ov text start).2 with
      | none => rw [hrec] at h3; simp at h3
      | some rest => simp
    · simp

lemma chunkTextAux_stuck :
    ∀ fuel : Nat, chunkTextAux 4 4 (List.replicate 10 'a') fuel 0 = none := by
  intro fuel
  induction fuel with
  | zero => decide
  | succ n ih =>
    have hunf : chunkTextAux 4 4 (List.replicate 10 'a') (n + 1) 0
        = match chunkTextAux 4 4 (List.replicate 10 'a') n 0 with
          | some rest => some (List.replicate 4 'a' :: rest)
          | none => none := rfl
    rw [hunf, ih]


/-- C1.  Determinism of chunking: running the chunk-and-identify step of
`process_pdf` twice on the same text with the same `chunk_size` and
`chunk_overlap` (and the same MD5 oracle, MD5 being a pure function) yields
the same ordered sequence of `(chunk_id, chunk_text)` pairs, and in
particular identical ordered chunk-ID sequences. -/
theorem claim1_chunking_deterministic (md5hex : String → String)
    (chunk_size chunk_overlap : Nat) (t1 t2 : PyStr) (heq : t1 = t2) :
    processPdfChunks md5hex chunk_size chunk_overlap t1
      = processPdfChunks md5hex chunk_size chunk_overlap t2 ∧
    (processPdfChunks md5hex chunk_size chunk_overlap t1).map (fun l => l.map Prod.fst)
      = (processPdfChunks md5hex chunk_size chunk_overlap t2).map (fun l => l.map Prod.fst) := by
  subst heq
  exact ⟨rfl, rfl⟩

/-- Witness for C1: two runs on the concrete text `"one. two. three"` with the
default parameters 700/100 agree. -/
theorem claim1_witness :
    processPdfChunks (fun s => s) 700 100 "one. two. three".data
      = processPdfChunks (fun s => s) 700 100 "one. two. three".data ∧
    (processPdfChunks (fun s => s) 700 100 "one. two. three".data).map (fun l => l.map Prod.fst)
      = (processPdfChunks (fun s => s) 700 100 "one. two. three".data).map (fun l => l.map Prod.fst) :=
  claim1_chunking_deterministic (fun s => s) 700 100 _ _ rfl

/-- C7.  Checkpoint load never fails: `load_checkpoint` returns the zeroed
record (counts 0, empty processed-ID list) when no checkpoint file exists,
and likewise when reading or parsing the file raises; being a total function
of the store, it never propagates an error. -/
theorem claim7_load_never_fails (fs : CheckpointStore) (name : String) :
    (storeLookup fs name = none → load_checkpoint fs name = zeroCheckpoint name) ∧
    (storeLookup fs name = some none → load_checkpoint fs name = zeroCheckpoint name) ∧
    (zeroCheckpoint name).processed_chunks = 0 ∧
    (zeroCheckpoint name).total_chunks = 0 ∧
    (zeroCheckpoint name).processed_ids = [] := by
  refine ⟨?_, ?_, rfl, rfl, rfl⟩
  · intro h
    simp [load_checkpoint, h]
  · intro h
    simp [load_checkpoint, h]

/-- Witness for C7: a store whose only file for `"doc"` is unreadable, and a
store with no file at all, both load as the zeroed record. -/
theorem claim7_witness :
    load_checkpoint [("doc", none)] "doc" = zeroCheckpoint "doc" ∧
    load_checkpoint [] "doc" = zeroCheckpoint "doc" :=
  ⟨(claim7_load_never_fails [("doc", none)] "doc").2.1 (by decide),
   (claim7_load_never_fails [] "doc").1 (by decide)⟩

/-- C2.  Idempotence on a complete document: when the loaded checkpoint's
`processed_ids` already contains the ID of every chunk passed in,
`add_documents_resumable` (run with a checkpoint manager) returns
immediately: it makes no upsert call, processes zero items this run, saves no
checkpoint, and leaves both the index contents and the checkpoint store
exactly as they were. -/
theorem claim2_idempotent_on_complete {E : Type} (emb : String → Option E)
    (addOk : Nat → Bool) (st : VSState E) (documents : List (String × String))
    (source document_name : String) (batch_size : Nat)
    (hdone : ∀ d ∈ documents,
      d.1 ∈ (load_checkpoint st.checkpoints document_name).processed_ids) :
    add_documents_resumable emb addOk st documents source true document_name batch_size
      = (st, some ⟨[], 0, none⟩) := by
  have hrem : get_remaining_chunks documents (load_checkpoint st.checkpoints document_name) = [] :=
    get_remaining_eq_nil hdone
  simp [add_documents_resumable, hrem]

/-- Witness for C2: a document whose single chunk `"a"` is already recorded
as processed; the run changes nothing and processes zero items. -/
theorem claim2_witness :
    (∀ d ∈ [("a", "text a")],
      Prod.fst d ∈ (load_checkpoint [("doc", some ⟨1, 1, ["a"], "doc"⟩)] "doc").processed_ids) ∧
    add_documents_resumable (E := Nat) (fun _ => some 0) (fun _ => true)
        ⟨[], [("doc", some ⟨1, 1, ["a"], "doc"⟩)]⟩ [("a", "text a")] "pdf" true "doc" 5000
      = (⟨[], [("doc", some ⟨1, 1, ["a"], "doc"⟩)]⟩, some ⟨[], 0, none⟩) :=
  ⟨by decide,
   claim2_idempotent_on_complete _ _ _ _ _ _ _ (by decide)⟩


/-- C4.  Checkpoint-after-upsert atomicity: a checkpoint is saved only in the
branch where every index batch write completed; if a `collection.add` call
raises (the run returns `none`), the checkpoint store is left unchanged, and
in a completed run every ID in the saved record was either already processed
before the run or belongs to a record upserted by this run. -/
theorem claim4_checkpoint_after_upsert {E : Type} (emb : String → Option E)
    (addOk : Nat → Bool) (st : VSState E) (docs : List (String × String))
    (src name : String) (bs : Nat) (hbs : 1 ≤ bs) :
    (∀ st', add_documents_resumable emb addOk st docs src true name bs = (st', none) →
       st'.checkpoints = st.checkpoints) ∧
    (∀ st' info r,
       add_documents_resumable emb addOk st docs src true name bs = (st', some info) →
       info.savedCheckpoint = some r →
       ∀ i ∈ r.processed_ids,
         i ∈ (load_checkpoint st.checkpoints name).processed_ids ∨
         i ∈ info.upsertCalls.flatten.map IndexRecord.id) := by
  by_cases hrem : get_remaining_chunks docs (load_checkpoint st.checkpoints name) = []
  · constructor
    · intro st' h
      simp [add_documents_resumable, hrem] at h
    · intro st' info r h hsave i hi
      simp [add_documents_resumable, hrem] at h
      obtain ⟨-, hinfo⟩ := h
      rw [← hinfo] at hsave
      simp at hsave
  · constructor
    · intro st' h
      simp only [add_documents_resumable] at h
      simp [hrem, get_embeddings_batch_resumable, filterValid_eq,
        List.isEmpty_iff, List.map_eq_nil_iff] at h
      rcases hval : addBatches addOk 0 st.index
          (batchList bs (validRecords emb src
            (get_remaining_chunks docs (load_checkpoint st.checkpoints name))))
        with ⟨index2, ok⟩
      rw [hval] at h
      cases ok with
      | false =>
        simp at h
        rw [← h]
      | true =>
        simp at h
    · intro st' info r h hsave i hi
      simp only [add_documents_resumable] at h
      simp [hrem, get_embeddings_batch_resumable, filterValid_eq,
        List.isEmpty_iff, List.map_eq_nil_iff] at h
      rcases hval : addBatches addOk 0 st.index
          (batchList bs (validRecords emb src
            (get_remaining_chunks docs (load_checkpoint st.checkpoints name))))
        with ⟨index2, ok⟩
      rw [hval] at h
      cases ok with
      | false => simp at h
      | true =>
        simp at h
        obtain ⟨-, hinfo⟩ := h
        subst hinfo
        simp at hsave
        subst hsave
        simp [batchList_flatten hbs, validRecords_map_id] at hi ⊢
        exact hi


lemma storeLookup_storeSet (fs : CheckpointStore) (name : String) (v : FileContent) :
    storeLookup (storeSet fs name v) name = some v := by
  induction fs with
  | nil => simp [storeSet, storeLookup, List.find?]
  | cons p rest ih =>
    obtain ⟨k, w⟩ := p
    by_cases hk : k = name
    · subst hk
      simp [storeSet, storeLookup, List.find?]
    · have hbeq : (k == name) = false := beq_eq_false_iff_ne.mpr hk
      simp only [storeSet, hbeq, Bool.false_eq_true, if_false]
      simp only [storeLookup, List.find?, hbeq] at ih ⊢
      exact ih

lemma load_checkpoint_save (fs : CheckpointStore) (name : String)
    (r : CheckpointRecord) :
    load_checkpoint (save_checkpoint fs name r) name
      = { r with document_name := name } := by
  simp [save_checkpoint, load_checkpoint, storeLookup_storeSet]

lemma mem_of_mem_filter_remaining {docs : List (String × String)}
    {cp : CheckpointRecord} {p : String × String → Bool} {d : String × String}
    (h : d ∈ (get_remaining_chunks docs cp).filter p) : d ∈ docs :=
  (mem_get_remaining.mp (List.mem_filter.mp h).1).1

/-- C3.  Partial-failure tolerance: `get_embeddings_batch_resumable` returns
an ordered sequence aligned with its input, with `none` substituted for every
item whose individual embedding failed; the orchestrator then upserts exactly
the successfully embedded remaining items (in order), marks exactly those as
processed in the saved checkpoint, and every remaining item whose embedding
failed is still in the remaining set computed from the resulting checkpoint
store, so it is retried on the next run. -/
theorem claim3_embedding_failure_tolerance {E : Type} (emb : String → Option E)
    (addOk : Nat → Bool) (st : VSState E) (docs : List (String × String))
    (src name : String) (bs : Nat) (texts : List String) (i : Nat)
    (hadd : ∀ n, addOk n = true) (hbs : 1 ≤ bs)
    (hnd : (docs.map Prod.fst).Nodup) :
    (get_embeddings_batch_resumable emb texts).length = texts.length ∧
    (get_embeddings_batch_resumable emb texts)[i]? = (texts[i]?).map emb ∧
    (∀ st' info,
      add_documents_resumable emb addOk st docs src true name bs = (st', some info) →
      (info.upsertCalls.flatten.map IndexRecord.id
         = ((get_remaining_chunks docs (load_checkpoint st.checkpoints name)).filter
             (fun d => (emb d.2).isSome)).map Prod.fst) ∧
      (∀ r, info.savedCheckpoint = some r →
         r.processed_ids = (load_checkpoint st.checkpoints name).processed_ids
           ++ ((get_remaining_chunks docs (load_checkpoint st.checkpoints name)).filter
               (fun d => (emb d.2).isSome)).map Prod.fst) ∧
      (∀ d ∈ docs, emb d.2 = none →
         d.1 ∉ (load_checkpoint st.checkpoints name).processed_ids →
         d ∈ get_remaining_chunks docs (load_checkpoint st'.checkpoints name))) := by
  refine ⟨by simp [get_embeddings_batch_resumable],
          by simp [get_embeddings_batch_resumable, List.getElem?_map], ?_⟩
  intro st' info h
  rw [run_spec emb addOk st docs src name bs hadd hbs] at h
  split at h
  · rename_i hrem
    simp at h
    obtain ⟨hst, hinfo⟩ := h
    subst hinfo
    refine ⟨by simp [hrem], by simp, ?_⟩
    intro d hd hemb hold
    rw [← hst]
    exact mem_get_remaining.mpr ⟨hd, hold⟩
  · rename_i hrem
    simp at h
    obtain ⟨hst, hinfo⟩ := h
    subst hinfo
    refine ⟨by simp [batchList_flatten hbs, validRecords_map_id], ?_, ?_⟩
    · intro r hr
      simp at hr
      rw [← hr]
      simp [validRecords_map_id]
    · intro d hd hemb hold
      rw [← hst]
      show d ∈ get_remaining_chunks docs
        (load_checkpoint (save_checkpoint st.checkpoints name _) name)
      rw [load_checkpoint_save]
      apply mem_get_remaining.mpr
      refine ⟨hd, ?_⟩
      simp only [validRecords_map_id]
      intro hmem
      rcases List.mem_append.mp hmem with hold2 | hnew
      · exact hold hold2
      · obtain ⟨d', hd', hfst⟩ := List.mem_map.mp hnew
        have hd'docs : d' ∈ docs := mem_of_mem_filter_remaining hd'
        have : d' = d := List.inj_on_of_nodup_map hnd hd'docs hd hfst
        subst this
        have := (List.mem_filter.mp hd').2
        rw [hemb] at this
        simp at this


/-- Witness for C3: with two documents where embedding the text of `"a"`
fails and the text of `"b"` succeeds, after the run the chunk `("a", "bad")`
is still in the remaining set computed from the saved checkpoint. -/
theorem claim3_witness :
    ("a", "bad") ∈ get_remaining_chunks [("a", "bad"), ("b", "ok")]
      (load_checkpoint [("doc", some ⟨1, 2, ["b"], "doc"⟩)] "doc") :=
  (claim3_embedding_failure_tolerance (E := Nat)
      (fun t => if t = "bad" then none else some 1) (fun _ => true)
      ⟨[], []⟩ [("a", "bad"), ("b", "ok")] "pdf" "doc" 5000 [] 0
      (fun _ => rfl) (by decide) (by decide)).2.2
    ⟨[⟨"b", 1, "ok", ⟨"pdf", "b"⟩⟩], [("doc", some ⟨1, 2, ["b"], "doc"⟩)]⟩
    ⟨[[⟨"b", 1, "ok", ⟨"pdf", "b"⟩⟩]], 1, some ⟨1, 2, ["b"], "doc"⟩⟩
    (by decide) |>.2.2 ("a", "bad") (by decide) (by decide) (by decide)

/-- Witness for C4: after a completed run on one document with an empty
checkpoint, the single marked ID `"a"` was upserted by this run (the right
disjunct of the theorem's conclusion). -/
theorem claim4_witness :
    "a" ∈ (load_checkpoint ([] : CheckpointStore) "doc").processed_ids ∨
    "a" ∈ (([[⟨"a", 0, "t", ⟨"pdf", "a"⟩⟩]] : List (List (IndexRecord Nat))).flatten.map
            IndexRecord.id) :=
  (claim4_checkpoint_after_upsert (fun _ => some (0 : Nat)) (fun _ => true)
      ⟨[], []⟩ [("a", "t")] "pdf" "doc" 5000 (by decide)).2
    ⟨[⟨"a", 0, "t", ⟨"pdf", "a"⟩⟩], [("doc", some ⟨1, 1, ["a"], "doc"⟩)]⟩
    ⟨[[⟨"a", 0, "t", ⟨"pdf", "a"⟩⟩]], 1, some ⟨1, 1, ["a"], "doc"⟩⟩
    ⟨1, 1, ["a"], "doc"⟩ (by decide) rfl "a" (by decide)

/-- C6.  Batch-size compliance: for every list of valid records and every
positive `batch_size` (including lengths not divisible by it), every slice
produced by the batching loop has at most `batch_size` records and the
concatenation of all slices is the full list in order; consequently every
`collection.add` call made by a completed `add_documents_resumable` run
carries at most `batch_size` records and the calls together carry exactly
the valid records. -/
theorem claim6_batch_size_compliance {E : Type} (records : List (IndexRecord E))
    (emb : String → Option E) (addOk : Nat → Bool) (st : VSState E)
    (docs : List (String × String)) (src name : String) (bs : Nat)
    (hbs : 1 ≤ bs) (hadd : ∀ n, addOk n = true) :
    (∀ b ∈ batchList bs records, b.length ≤ bs) ∧
    (batchList bs records).flatten = records ∧
    (∀ st' info,
      add_documents_resumable emb addOk st docs src true name bs = (st', some info) →
      (∀ b ∈ info.upsertCalls, b.length ≤ bs) ∧
      info.upsertCalls.flatten
        = validRecords emb src (get_remaining_chunks docs (load_checkpoint st.checkpoints name))) := by
  refine ⟨batchList_le records, batchList_flatten hbs records, ?_⟩
  intro st' info h
  rw [run_spec emb addOk st docs src name bs hadd hbs] at h
  split at h
  · rename_i hrem
    simp at h
    obtain ⟨-, hinfo⟩ := h
    subst hinfo
    exact ⟨by simp, by rw [hrem]; simp [validRecords]⟩
  · simp at h
    obtain ⟨-, hinfo⟩ := h
    subst hinfo
    exact ⟨batchList_le _, batchList_flatten hbs _⟩

/-- Witness for C6: three records with `batch_size = 2`; a batch respects the
bound and the concatenation of the slices restores the list. -/
theorem claim6_witness :
    (([⟨"a", 0, "t", ⟨"pdf", "a"⟩⟩, ⟨"b", 0, "u", ⟨"pdf", "b"⟩⟩] : List (IndexRecord Nat)).length ≤ 2) ∧
    (batchList 2 ([⟨"a", 0, "t", ⟨"pdf", "a"⟩⟩, ⟨"b", 0, "u", ⟨"pdf", "b"⟩⟩,
        ⟨"c", 0, "v", ⟨"pdf", "c"⟩⟩] : List (IndexRecord Nat))).flatten
      = [⟨"a", 0, "t", ⟨"pdf", "a"⟩⟩, ⟨"b", 0, "u", ⟨"pdf", "b"⟩⟩, ⟨"c", 0, "v", ⟨"pdf", "c"⟩⟩] :=
  ⟨(claim6_batch_size_compliance
      ([⟨"a", 0, "t", ⟨"pdf", "a"⟩⟩, ⟨"b", 0, "u", ⟨"pdf", "b"⟩⟩,
        ⟨"c", 0, "v", ⟨"pdf", "c"⟩⟩] : List (IndexRecord Nat))
      (fun _ => some 0) (fun _ => true) ⟨[], []⟩ [] "pdf" "doc" 2
      (by decide) (fun _ => rfl)).1 _ (by decide),
   (claim6_batch_size_compliance
      ([⟨"a", 0, "t", ⟨"pdf", "a"⟩⟩, ⟨"b", 0, "u", ⟨"pdf", "b"⟩⟩,
        ⟨"c", 0, "v", ⟨"pdf", "c"⟩⟩] : List (IndexRecord Nat))
      (fun _ => some 0) (fun _ => true) ⟨[], []⟩ [] "pdf" "doc" 2
      (by decide) (fun _ => rfl)).2.1⟩

/-- C5 (counterexample).  The claim fails on the code in two ways:
`load_checkpoint` returns an existing parseable record verbatim without
enforcing `processed_count = |processed_ids|` (a file claiming 5 processed
chunks with an empty ID list loads as-is), and a run over documents with
duplicate IDs saves a record whose `processed_chunks` (2) exceeds its number
of distinct processed IDs (1). -/
theorem claim5_counterexample :
    (load_checkpoint [("d", some ⟨5, 5, [], "d"⟩)] "d").processed_chunks = 5 ∧
    (load_checkpoint [("d", some ⟨5, 5, [], "d"⟩)] "d").processed_ids.dedup.length = 0 ∧
    (((add_documents_resumable (E := Nat) (fun _ => some 0) (fun _ => true) ⟨[], []⟩
        [("a", "t"), ("a", "t")] "pdf" true "doc" 5000).2.getD
          ⟨[], 0, none⟩).savedCheckpoint.getD (zeroCheckpoint "x")).processed_chunks = 2 ∧
    (((add_documents_resumable (E := Nat) (fun _ => some 0) (fun _ => true) ⟨[], []⟩
        [("a", "t"), ("a", "t")] "pdf" true "doc" 5000).2.getD
          ⟨[], 0, none⟩).savedCheckpoint.getD (zeroCheckpoint "x")).processed_ids.dedup.length = 1 := by
  decide

/-- C5 (amended).  The zeroed record satisfies `processed_chunks =
|processed_ids|`; every record saved by a completed `add_documents_resumable`
run satisfies it with `|·|` read as list length whenever the loaded starting
record does; and with `|·|` read as distinct count whenever additionally the
starting record's `processed_ids` are duplicate-free and the input document
IDs are pairwise distinct.  (`load_checkpoint` itself returns file contents
verbatim and does not enforce the invariant.) -/
theorem claim5_count_invariant {E : Type} (emb : String → Option E)
    (addOk : Nat → Bool) (st : VSState E) (docs : List (String × String))
    (src name : String) (bs : Nat) (hadd : ∀ n, addOk n = true) (hbs : 1 ≤ bs) :
    ((zeroCheckpoint name).processed_chunks = (zeroCheckpoint name).processed_ids.length) ∧
    (∀ st' info r,
      add_documents_resumable emb addOk st docs src true name bs = (st', some info) →
      info.savedCheckpoint = some r →
      ((load_checkpoint st.checkpoints name).processed_chunks
          = (load_checkpoint st.checkpoints name).processed_ids.length →
        r.processed_chunks = r.processed_ids.length) ∧
      ((load_checkpoint st.checkpoints name).processed_chunks
          = (load_checkpoint st.checkpoints name).processed_ids.length →
       (load_checkpoint st.checkpoints name).processed_ids.Nodup →
       (docs.map Prod.fst).Nodup →
       r.processed_ids.Nodup ∧ r.processed_chunks = r.processed_ids.dedup.length)) := by
  refine ⟨rfl, ?_⟩
  intro st' info r h hsave
  rw [run_spec emb addOk st docs src name bs hadd hbs] at h
  split at h
  · simp at h
    obtain ⟨-, hinfo⟩ := h
    subst hinfo
    simp at hsave
  · simp at h
    obtain ⟨-, hinfo⟩ := h
    subst hinfo
    simp at hsave
    subst hsave
    have hlen : (validRecords emb src
        (get_remaining_chunks docs (load_checkpoint st.checkpoints name))).map IndexRecord.id
        = ((get_remaining_chunks docs (load_checkpoint st.checkpoints name)).filter
            (fun d => (emb d.2).isSome)).map Prod.fst := validRecords_map_id emb src _
    constructor
    · intro hold
      simp [hold, List.length_append]
    · intro hold hnodupOld hnodupDocs
      have hsub : ((get_remaining_chunks docs (load_checkpoint st.checkpoints name)).filter
          (fun d => (emb d.2).isSome)).Sublist docs :=
        ((get_remaining_chunks docs (load_checkpoint st.checkpoints name)).filter_sublist).trans
          (docs.filter_sublist)
      have hnodupNew : (((get_remaining_chunks docs (load_checkpoint st.checkpoints name)).filter
          (fun d => (emb d.2).isSome)).map Prod.fst).Nodup :=
        (hsub.map Prod.fst).nodup hnodupDocs
      have hdisj : (load_checkpoint st.checkpoints name).processed_ids.Disjoint
          (((get_remaining_chunks docs (load_checkpoint st.checkpoints name)).filter
            (fun d => (emb d.2).isSome)).map Prod.fst) := by
        intro a ha hnew
        obtain ⟨d', hd', hfst⟩ := List.mem_map.mp hnew
        have : d'.1 ∉ (load_checkpoint st.checkpoints name).processed_ids :=
          (mem_get_remaining.mp (List.mem_filter.mp hd').1).2
        rw [hfst] at this
        exact this ha
      have hnodup : ((load_checkpoint st.checkpoints name).processed_ids
          ++ ((get_remaining_chunks docs (load_checkpoint st.checkpoints name)).filter
              (fun d => (emb d.2).isSome)).map Prod.fst).Nodup :=
        hnodupOld.append hnodupNew hdisj
      constructor
      · simpa [hlen] using hnodup
      · have hded : ((load_checkpoint st.checkpoints name).processed_ids
            ++ ((get_remaining_chunks docs (load_checkpoint st.checkpoints name)).filter
                (fun d => (emb d.2).isSome)).map Prod.fst).dedup
            = (load_checkpoint st.checkpoints name).processed_ids
            ++ ((get_remaining_chunks docs (load_checkpoint st.checkpoints name)).filter
                (fun d => (emb d.2).isSome)).map Prod.fst := List.dedup_eq_self.mpr hnodup
        have h2 := congrArg List.length hlen
        simp only [List.length_map] at h2
        simp [hlen, hded, hold, h2, List.length_append]

/-- Witness for C5 (amended): a completed run on two distinct documents from
an empty store saves a record with duplicate-free IDs whose count equals its
distinct-ID count. -/
theorem claim5_witness :
    (⟨2, 2, ["a", "b"], "doc"⟩ : CheckpointRecord).processed_ids.Nodup ∧
    (⟨2, 2, ["a", "b"], "doc"⟩ : CheckpointRecord).processed_chunks
      = (⟨2, 2, ["a", "b"], "doc"⟩ : CheckpointRecord).processed_ids.dedup.length :=
  ((claim5_count_invariant (E := Nat) (fun _ => some 0) (fun _ => true)
      ⟨[], []⟩ [("a", "t"), ("b", "u")] "pdf" "doc" 5000
      (fun _ => rfl) (by decide)).2
    ⟨[⟨"a", 0, "t", ⟨"pdf", "a"⟩⟩, ⟨"b", 0, "u", ⟨"pdf", "b"⟩⟩],
     [("doc", some ⟨2, 2, ["a", "b"], "doc"⟩)]⟩
    ⟨[[⟨"a", 0, "t", ⟨"pdf", "a"⟩⟩, ⟨"b", 0, "u", ⟨"pdf", "b"⟩⟩]], 2,
     some ⟨2, 2, ["a", "b"], "doc"⟩⟩
    ⟨2, 2, ["a", "b"], "doc"⟩
    (by decide) rfl).2 (by decide) (by decide) (by decide)


/-- C8 (counterexample).  On a whitespace-only text the single chunk strips
to the empty string and is still kept and assigned an ID, so `process_pdf`
returns a pair with empty text: empty chunks are not dropped. -/
theorem claim8_counterexample :
    processPdfChunks (fun _ => "") 700 100 [' ', ' ', ' ']
      = some [("chunk_000000_", [])] ∧
    (([] : PyStr).isEmpty = true) := by
  exact ⟨by decide, rfl⟩

/-- C8 (amended).  Chunks are stripped of leading and trailing whitespace
before ID assignment, but empty or whitespace-only chunks are not dropped:
every `(chunk_id, chunk_text)` pair returned by the chunk-and-identify step
has text invariant under stripping (hence no leading or trailing whitespace),
though the text may be empty. -/
theorem claim8_chunks_stripped_not_dropped (md5hex : String → String)
    (chunk_size chunk_overlap : Nat) (text : PyStr)
    (chunks : List (String × PyStr))
    (h : processPdfChunks md5hex chunk_size chunk_overlap text = some chunks) :
    ∀ p ∈ chunks, pyStrip p.2 = p.2 := by
  obtain ⟨cl, hcl, rfl⟩ := Option.map_eq_some'.mp h
  intro p hp
  obtain ⟨q, hq, rfl⟩ := List.mem_map.mp hp
  have hq2 : q.2 ∈ cl := by
    have := List.mem_map_of_mem Prod.snd hq
    rwa [List.enum_map_snd] at this
  exact chunkTextAux_mem_strip chunk_size chunk_overlap text _ _ cl hcl q.2 hq2

/-- Witness for C8 (amended): the text `"  hi  "` chunks to the single
stripped chunk `"hi"`, which stripping leaves unchanged. -/
theorem claim8_witness :
    pyStrip "hi".data = "hi".data :=
  claim8_chunks_stripped_not_dropped (fun _ => "") 700 100 "  hi  ".data
    [("chunk_000000_", "hi".data)] (by decide)
    ("chunk_000000_", "hi".data) (by decide)

set_option maxRecDepth 100000 in
/-- C9 (counterexample).  A 1450-character text (1450 copies of `'a'`) with
`chunk_size = 600` and `overlap = 150` produces 4 chunks, not 3 as the spec's
worked example states (the loop restarts at 0, 450, 900 and 1350, each
strictly below 1450). -/
theorem claim9_counterexample :
    ((chunk_text 600 150 (List.replicate 1450 'a')).getD []).length = 4 ∧
    ¬ ((chunk_text 600 150 (List.replicate 1450 'a')).getD []).length = 3 := by
  exact ⟨by decide, by decide⟩


set_option maxRecDepth 100000 in
/-- C9 (amended).  A text of 1450 characters (1450 copies of `'a'`) with
`chunk_size = 600` and `overlap = 150` produces exactly 4 chunks, with IDs
`chunk_000000_<hash8>`, `chunk_000001_<hash8>`, `chunk_000002_<hash8>`,
`chunk_000003_<hash8>` for any MD5 oracle, and each chunk after the first
begins with the last 150 characters of its predecessor (its first 150
characters are a suffix of the predecessor; the last chunk, of 100
characters, is wholly a suffix of its predecessor). -/
theorem claim9_worked_example (md5hex : String → String) :
    processPdfChunks md5hex 600 150 (List.replicate 1450 'a')
      = some [(mkChunkId md5hex 0 (List.replicate 600 'a'), List.replicate 600 'a'),
              (mkChunkId md5hex 1 (List.replicate 600 'a'), List.replicate 600 'a'),
              (mkChunkId md5hex 2 (List.replicate 550 'a'), List.replicate 550 'a'),
              (mkChunkId md5hex 3 (List.replicate 100 'a'), List.replicate 100 'a')] ∧
    (((List.replicate 600 'a' : PyStr).take 150).isSuffixOf (List.replicate 600 'a') = true) ∧
    (((List.replicate 550 'a' : PyStr).take 150).isSuffixOf (List.replicate 600 'a') = true) ∧
    (((List.replicate 100 'a' : PyStr).take 150).isSuffixOf (List.replicate 550 'a') = true) := by
  have hc : chunk_text 600 150 (List.replicate 1450 'a')
      = some [List.replicate 600 'a', List.replicate 600 'a',
              List.replicate 550 'a', List.replicate 100 'a'] := by decide
  refine ⟨?_, by decide, by decide, by decide⟩
  show (chunk_text 600 150 (List.replicate 1450 'a')).map _ = _
  rw [hc]
  rfl

/-- Witness for C9 (amended): the worked example instantiated at the
identity-string MD5 oracle. -/
theorem claim9_witness :
    processPdfChunks (fun s => s) 600 150 (List.replicate 1450 'a')
      = some [(mkChunkId (fun s => s) 0 (List.replicate 600 'a'), List.replicate 600 'a'),
              (mkChunkId (fun s => s) 1 (List.replicate 600 'a'), List.replicate 600 'a'),
              (mkChunkId (fun s => s) 2 (List.replicate 550 'a'), List.replicate 550 'a'),
              (mkChunkId (fun s => s) 3 (List.replicate 100 'a'), List.replicate 100 'a')] :=
  (claim9_worked_example (fun s => s)).1

/-- C10.  Termination of the chunking loop: when `chunk_overlap <
chunk_size // 2`, each iteration advances `start` by at least
`chunk_size // 2 + 1 - chunk_overlap` (even when the end is pulled back to a
sentence boundary, since the pull-back position exceeds `chunk_size // 2`),
so the loop terminates within `len(text) + 1` iterations for every text;
without the precondition progress is not guaranteed: with `chunk_size =
chunk_overlap = 4` on a periodless 10-character text, `start` stays at 0 and
the loop never terminates (every fuel bound is exhausted). -/
theorem claim10_chunking_termination :
    (∀ chunk_size chunk_overlap : Nat, chunk_overlap < chunk_size / 2 →
       ∀ text : PyStr, (chunk_text chunk_size chunk_overlap text).isSome = true) ∧
    (∀ chunk_size chunk_overlap : Nat, chunk_overlap < chunk_size / 2 →
       ∀ (text : PyStr) (start : Int), start < pyLen text →
       start + ((chunk_size / 2 : Nat) : Int) + 1 - (chunk_overlap : Int)
         ≤ (chunkStep chunk_size chunk_overlap text start).2) ∧
    (¬ (4 : Nat) < 4 / 2) ∧
    (∀ fuel : Nat, chunkTextAux 4 4 (List.replicate 10 'a') fuel 0 = none) := by
  refine ⟨?_, ?_, by decide, chunkTextAux_stuck⟩
  · intro cs ov hov text
    exact chunkTextAux_isSome cs ov hov text (text.length + 1) 0 (by push_cast [pyLen]; omega)
  · intro cs ov hov text start h
    exact chunkStep_lb cs ov text start hov h

/-- Witness for C10: with the repository defaults `chunk_size = 700`,
`chunk_overlap = 100` (and `100 < 700 // 2`), chunking a 20-character text
terminates. -/
theorem claim10_witness :
    (chunk_text 700 100 (List.replicate 20 'a')).isSome = true :=
  claim10_chunking_termination.1 700 100 (by decide) (List.replicate 20 'a')

end MedAI
